import Mathlib

/-!
Shallow embedding of the QueueCTL background job queue (src/src/job.js,
src/src/worker.js, src/queuectl.js, schema in src/supabase/migrations).

Timestamps (ISO strings compared as instants in the store) are modelled as
`Nat`.  JavaScript numbers used for `attempts` are modelled as `Nat`
(they are only ever 0 or incremented), and `max_retries` as `Int`
(arbitrary numbers, including negatives, flow into it unchecked).
The persistent store (the `jobs` table) is a `List Job`; a SQL
`UPDATE ... WHERE p` is a `List.map` that rewrites exactly the rows
satisfying `p`.  Fallible round-trips return `Except String`.
-/

/-- Job states, from the `JobState` object in src/src/job.js. -/
inductive JobState where
  | pending
  | processing
  | completed
  | failed
  | dead
deriving DecidableEq

/-- A row of the `jobs` table (schema in src/supabase/migrations). -/
structure Job where
  id : String
  command : String
  state : JobState
  attempts : Nat
  max_retries : Int
  created_at : Nat
  updated_at : Nat
  scheduled_at : Option Nat
  last_error : Option String
  output : Option String
  locked_by : Option String
  locked_at : Option Nat
deriving DecidableEq

/-- JavaScript `v || d` on numbers: `undefined`/`NaN` (here `none`) and `0`
are falsy and give `d`; any other number (negatives included) is kept. -/
def jsOrNum (v : Option Int) (d : Int) : Int :=
  match v with
  | none => d
  | some n => if n = 0 then d else n

/-- The fields of the object passed to `enqueueJob` (`jobData`).
`max_retries = none` models an absent/undefined field. -/
structure JobSpec where
  id : String
  command : String
  max_retries : Option Int
  scheduled_at : Option Nat
deriving DecidableEq

/-- The `job` object built by `enqueueJob` (src/src/job.js:14-27). -/
def freshJob (jobData : JobSpec) (now : Nat) : Job :=
  { id := jobData.id
    command := jobData.command
    state := JobState.pending
    attempts := 0
    max_retries := jsOrNum jobData.max_retries 3
    created_at := now
    updated_at := now
    scheduled_at := jobData.scheduled_at
    last_error := none
    output := none
    locked_by := none
    locked_at := none }

/-- `enqueueJob` (src/src/job.js:11-37): builds the fresh row and inserts it.
The insert fails when the id already exists: `id` is the table's
PRIMARY KEY (src/supabase/migrations), so the store rejects duplicates. -/
def enqueueJob (jobData : JobSpec) (now : Nat) (store : List Job) :
    Except String (Job × List Job) :=
  if store.any (fun j => j.id == jobData.id) then
    Except.error "duplicate key value violates unique constraint"
  else
    Except.ok (freshJob jobData now, store ++ [freshJob jobData now])

/-- The row rewrite performed by `updateJob`: apply the `updates` object
`f` and refresh `updated_at` (src/src/job.js:78). -/
def applyUpdate (f : Job → Job) (now : Nat) (j : Job) : Job :=
  { f j with updated_at := now }

/-- `updateJob` (src/src/job.js:74-85): `UPDATE jobs SET ... WHERE id = jobId`,
then `.single()`, which errors when no row matched. -/
def updateJob (jobId : String) (f : Job → Job) (now : Nat) (store : List Job) :
    Except String (Job × List Job) :=
  match store.find? (fun j => j.id == jobId) with
  | none => Except.error "JSON object requested, multiple (or no) rows returned"
  | some j =>
      Except.ok (applyUpdate f now j,
        store.map (fun r => if r.id == jobId then applyUpdate f now r else r))

/-- The condition of `lockJob`'s conditional update:
`.eq('id', jobId).eq('state', 'pending').is('locked_by', null)`. -/
def lockableRow (jobId : String) (j : Job) : Bool :=
  j.id == jobId && j.state == JobState.pending && j.locked_by == none

/-- The fields `lockJob` sets on the matched row (src/src/job.js:92-97). -/
def lockUpdate (workerId : String) (now : Nat) (j : Job) : Job :=
  { j with
      state := JobState.processing
      locked_by := some workerId
      locked_at := some now
      updated_at := now }

/-- `lockJob` (src/src/job.js:87-106): atomic conditional update; `.maybeSingle()`
returns the updated row, or `null` when nothing matched. -/
def lockJob (jobId workerId : String) (now : Nat) (store : List Job) :
    Option Job × List Job :=
  ((store.find? (lockableRow jobId)).map (lockUpdate workerId now),
   store.map (fun r => if lockableRow jobId r then lockUpdate workerId now r else r))

/-- The eligibility filter of `getNextPendingJob`:
`.eq('state','pending').is('locked_by', null)
.or('scheduled_at.is.null,scheduled_at.lte.now')`. -/
def eligibleRow (now : Nat) (j : Job) : Bool :=
  j.state == JobState.pending && j.locked_by == none &&
    (match j.scheduled_at with
     | none => true
     | some t => decide (t ≤ now))

/-- `ORDER BY created_at ASC LIMIT 1` on two candidates: keep the older. -/
def olderRow (a b : Job) : Job :=
  if b.created_at < a.created_at then b else a

/-- `getNextPendingJob` (src/src/job.js:108-124): the oldest eligible row,
or `none` when the queue has no eligible job. -/
def getNextPendingJob (now : Nat) (store : List Job) : Option Job :=
  match store.filter (eligibleRow now) with
  | [] => none
  | j :: js => some (js.foldl olderRow j)

/-- The `updates` object of `markJobCompleted` (src/src/job.js:126-133). -/
def completeUpdate (out : String) (j : Job) : Job :=
  { j with
      state := JobState.completed
      output := some out
      locked_by := none
      locked_at := none }

/-- `markJobCompleted` (src/src/job.js:126-133). -/
def markJobCompleted (jobId : String) (out : String) (now : Nat)
    (store : List Job) : Except String (Job × List Job) :=
  updateJob jobId (completeUpdate out) now store

/-- The `updates` object of `markJobFailed` (src/src/job.js:138-144),
with the `state` already computed. -/
def failUpdate (state : JobState) (err : String) (attempts : Nat) (j : Job) : Job :=
  { j with
      state := state
      attempts := attempts
      last_error := some err
      locked_by := none
      locked_at := none }

/-- `markJobFailed` (src/src/job.js:135-145):
`state = attempts >= maxRetries ? DEAD : FAILED`, then the update. -/
def markJobFailed (jobId : String) (err : String) (attempts : Nat)
    (maxRetries : Int) (now : Nat) (store : List Job) :
    Except String (Job × List Job) :=
  let state :=
    if (attempts : Int) ≥ maxRetries then JobState.dead else JobState.failed
  updateJob jobId (failUpdate state err attempts) now store

/-- The `updates` object of `requeueFailedJob` (src/src/job.js:147-153).
Note it carries no condition on the current state. -/
def requeueUpdate (j : Job) : Job :=
  { j with
      state := JobState.pending
      locked_by := none
      locked_at := none }

/-- `requeueFailedJob` (src/src/job.js:147-153). -/
def requeueFailedJob (jobId : String) (now : Nat) (store : List Job) :
    Except String (Job × List Job) :=
  updateJob jobId requeueUpdate now store

/-- `Worker.handleJobFailure` (src/src/worker.js): increments the attempt
count, writes the failure, and — only when retries remain — schedules a
deferred `requeueFailedJob` after `backoffBase ^ attempts` seconds.
The first component is the store after `markJobFailed` (or the thrown
error); the second is the scheduled delay in seconds, `none` when no
retry is scheduled. -/
def handleJobFailure (job : Job) (errorMessage : String) (backoffBase : Int)
    (now : Nat) (store : List Job) :
    Except String (List Job) × Option Int :=
  let attempts := job.attempts + 1
  let maxRetries := job.max_retries
  match markJobFailed job.id errorMessage attempts maxRetries now store with
  | Except.error e => (Except.error e, none)
  | Except.ok (_, store2) =>
      if (attempts : Int) < maxRetries then
        (Except.ok store2, some (backoffBase ^ attempts))
      else
        (Except.ok store2, none)

/-- `parseInt(await getConfig('backoff_base')) || 2` (src/src/worker.js):
`none` models a missing key or non-numeric value (`parseInt` gave `NaN`). -/
def resolveBackoffBase (configValue : Option Int) : Int :=
  jsOrNum configValue 2

/-- `jobSpec.max_retries || parseInt(await getConfig('max_retries')) || 3`
in the CLI enqueue action (src/queuectl.js:40). -/
def cliResolvedMaxRetries (specMr : Option Int) (configMr : Option Int) : Int :=
  jsOrNum specMr (jsOrNum configMr 3)

/-- Local state of a `Worker` instance (src/src/worker.js constructor):
the fields `processNextJob` touches. -/
structure WorkerState where
  workerId : String
  isRunning : Bool
  currentJob : Option Job
deriving DecidableEq

/-- Outcome of an awaited call that may throw. -/
inductive Outcome (α : Type) where
  | ok (value : α)
  | threw (message : String)

/-- `Worker.processNextJob` (src/src/worker.js): guard, then
`try { fetch; lock; currentJob := lockedJob; execute }
catch { log } finally { currentJob := null }`.  The outcomes of the three
awaited calls are inputs; a JavaScript `return` inside `try` still runs
the `finally` block, hence every branch past the guard clears the marker. -/
def processNextJob (w : WorkerState) (fetched : Outcome (Option Job))
    (locked : Job → Outcome (Option Job)) (executed : Job → Outcome Unit) :
    WorkerState :=
  if !w.isRunning || w.currentJob.isSome then w
  else
    match fetched with
    | Outcome.threw _ => { w with currentJob := none }
    | Outcome.ok none => { w with currentJob := none }
    | Outcome.ok (some job) =>
        match locked job with
        | Outcome.threw _ => { w with currentJob := none }
        | Outcome.ok none => { w with currentJob := none }
        | Outcome.ok (some lockedJob) =>
            let busy := { w with currentJob := some lockedJob }
            match executed lockedJob with
            | Outcome.ok _ => { busy with currentJob := none }
            | Outcome.threw _ => { busy with currentJob := none }

/-- One mutation of the `jobs` table, as the Worker loop and the CLI invoke
the registry: `enqueue` inserts; `claim` is `lockJob` (unconditional to
call, internally guarded); `complete` and `fail` are issued by a worker
holding the (processing) row `j`; `retryRequeue` is the deferred retry of a
`failed` row; `dlqRetry` is the CLI retry of a `dead` row. -/
inductive Step : List Job → List Job → Prop where
  | enqueue {store store' : List Job} (spec : JobSpec) (now : Nat) (job : Job)
      (h : enqueueJob spec now store = Except.ok (job, store')) :
      Step store store'
  | claim {store : List Job} (jobId workerId : String) (now : Nat) :
      Step store (lockJob jobId workerId now store).2
  | complete {store store' : List Job} (j : Job) (out : String) (now : Nat)
      (ret : Job) (hj : j ∈ store) (hs : j.state = JobState.processing)
      (h : markJobCompleted j.id out now store = Except.ok (ret, store')) :
      Step store store'
  | fail {store store' : List Job} (j : Job) (msg : String) (base : Int)
      (now : Nat) (hj : j ∈ store) (hs : j.state = JobState.processing)
      (h : (handleJobFailure j msg base now store).1 = Except.ok store') :
      Step store store'
  | retryRequeue {store store' : List Job} (j : Job) (now : Nat) (ret : Job)
      (hj : j ∈ store) (hs : j.state = JobState.failed)
      (h : requeueFailedJob j.id now store = Except.ok (ret, store')) :
      Step store store'
  | dlqRetry {store store' : List Job} (j : Job) (now : Nat) (ret : Job)
      (hj : j ∈ store) (hs : j.state = JobState.dead)
      (h : requeueFailedJob j.id now store = Except.ok (ret, store')) :
      Step store store'

/-- Stores reachable from the empty table through registry operations. -/
inductive Reachable : List Job → Prop where
  | empty : Reachable []
  | step {s s' : List Job} : Reachable s → Step s s' → Reachable s'

/-- Like `Step`, but with no manual DLQ retry of `dead` rows, and with
enqueue restricted to specs whose resolved `max_retries` is positive
(the spec's data model declares `max_retries` a positive integer). -/
inductive StepND : List Job → List Job → Prop where
  | enqueue {store store' : List Job} (spec : JobSpec) (now : Nat) (job : Job)
      (hmr : 1 ≤ jsOrNum spec.max_retries 3)
      (h : enqueueJob spec now store = Except.ok (job, store')) :
      StepND store store'
  | claim {store : List Job} (jobId workerId : String) (now : Nat) :
      StepND store (lockJob jobId workerId now store).2
  | complete {store store' : List Job} (j : Job) (out : String) (now : Nat)
      (ret : Job) (hj : j ∈ store) (hs : j.state = JobState.processing)
      (h : markJobCompleted j.id out now store = Except.ok (ret, store')) :
      StepND store store'
  | fail {store store' : List Job} (j : Job) (msg : String) (base : Int)
      (now : Nat) (hj : j ∈ store) (hs : j.state = JobState.processing)
      (h : (handleJobFailure j msg base now store).1 = Except.ok store') :
      StepND store store'
  | retryRequeue {store store' : List Job} (j : Job) (now : Nat) (ret : Job)
      (hj : j ∈ store) (hs : j.state = JobState.failed)
      (h : requeueFailedJob j.id now store = Except.ok (ret, store')) :
      StepND store store'

/-- Stores reachable without ever requeueing a `dead` job. -/
inductive ReachableND : List Job → Prop where
  | empty : ReachableND []
  | step {s s' : List Job} : ReachableND s → StepND s s' → ReachableND s'

/-- A store has well-formed ids when no two rows share one (the PRIMARY KEY
constraint of the `jobs` table). -/
def UniqueIds (store : List Job) : Prop :=
  store.Pairwise (fun a b => a.id ≠ b.id)

/-- A sample pending row used to instantiate theorems on concrete input. -/
def samplePending : Job :=
  { id := "t1", command := "true", state := JobState.pending, attempts := 0,
    max_retries := 3, created_at := 0, updated_at := 0, scheduled_at := none,
    last_error := none, output := none, locked_by := none, locked_at := none }

/-- A sample job spec with no explicit `max_retries` or `scheduled_at`. -/
def sampleSpec : JobSpec :=
  { id := "t1", command := "true", max_retries := none, scheduled_at := none }

/-- A sample row a worker holds (`processing`, locked). -/
def sampleProcessing : Job :=
  { id := "t1", command := "true", state := JobState.processing, attempts := 0,
    max_retries := 3, created_at := 0, updated_at := 1, scheduled_at := none,
    last_error := none, output := none, locked_by := some "w1",
    locked_at := some 1 }

/-- A sample row that already ran to completion. -/
def sampleCompleted : Job :=
  { id := "t1", command := "true", state := JobState.completed, attempts := 0,
    max_retries := 3, created_at := 0, updated_at := 2, scheduled_at := none,
    last_error := none, output := some "ok", locked_by := none,
    locked_at := none }

/-- The job spec of the retry-exhaustion scenario (`max_retries = 2`). -/
def cexSpec : JobSpec :=
  { id := "t2", command := "false", max_retries := some 2, scheduled_at := none }

/-- The scenario rows: enqueue, claim, fail, automatic requeue, claim, fail
(now `dead`), manual DLQ retry, claim, fail again. -/
def cexJ1 : Job := freshJob cexSpec 0

def cexJ2 : Job := lockUpdate "w1" 1 cexJ1

def cexJ3 : Job := applyUpdate (failUpdate JobState.failed "boom" 1) 2 cexJ2

def cexJ4 : Job := applyUpdate requeueUpdate 3 cexJ3

def cexJ5 : Job := lockUpdate "w1" 4 cexJ4

def cexJ6 : Job := applyUpdate (failUpdate JobState.dead "boom" 2) 5 cexJ5

def cexJ7 : Job := applyUpdate requeueUpdate 6 cexJ6

def cexJ8 : Job := lockUpdate "w1" 7 cexJ7

def cexJ9 : Job := applyUpdate (failUpdate JobState.dead "boom" 3) 8 cexJ8

theorem updateJob_ok {jobId : String} {f : Job → Job} {now : Nat}
    {store : List Job} {ret : Job} {store' : List Job}
    (h : updateJob jobId f now store = Except.ok (ret, store')) :
    ∃ j, store.find? (fun r => r.id == jobId) = some j ∧
      ret = applyUpdate f now j ∧
      store' = store.map
        (fun r => if r.id == jobId then applyUpdate f now r else r) := by
  unfold updateJob at h
  cases hf : store.find? (fun r => r.id == jobId) with
  | none => rw [hf] at h; exact absurd h (by simp)
  | some j =>
      rw [hf] at h
      simp only [Except.ok.injEq, Prod.mk.injEq] at h
      exact ⟨j, rfl, h.1.symm, h.2.symm⟩

theorem enqueueJob_ok {spec : JobSpec} {now : Nat} {store : List Job}
    {job : Job} {store' : List Job}
    (h : enqueueJob spec now store = Except.ok (job, store')) :
    (∀ r ∈ store, r.id ≠ spec.id) ∧ job = freshJob spec now ∧
      store' = store ++ [freshJob spec now] := by
  unfold enqueueJob at h
  split at h
  · exact absurd h (by simp)
  · next hdup =>
      simp only [Except.ok.injEq, Prod.mk.injEq] at h
      refine ⟨?_, h.1.symm, h.2.symm⟩
      intro r hr
      have hall := List.any_eq_false.mp (Bool.not_eq_true _ ▸ hdup) r hr
      simpa using hall

theorem mem_map_update {g : Job → Job} {p : Job → Bool} {store : List Job}
    {r' : Job} (h : r' ∈ store.map fun r => if p r then g r else r) :
    ∃ r, r ∈ store ∧ r' = if p r then g r else r := by
  rcases List.mem_map.mp h with ⟨r, hr, he⟩
  exact ⟨r, hr, he.symm⟩

theorem forall₂_map_update {g : Job → Job} {p : Job → Bool} (store : List Job) :
    List.Forall₂ (fun r r' => (p r = true → r' = g r) ∧ (p r = false → r' = r))
      store (store.map fun r => if p r then g r else r) := by
  rw [List.forall₂_map_right_iff]
  rw [List.forall₂_same]
  intro r _
  constructor
  · intro hp; simp [hp]
  · intro hp; simp [hp]

theorem uniqueIds_map_update (g : Job → Job) (p : Job → Bool)
    (hid : ∀ j, (g j).id = j.id) {store : List Job} (h : UniqueIds store) :
    UniqueIds (store.map fun r => if p r then g r else r) := by
  unfold UniqueIds at h ⊢
  rw [List.pairwise_map]
  refine h.imp ?_
  intro a b hab
  by_cases hpa : p a <;> by_cases hpb : p b <;> simpa [hpa, hpb, hid] using hab

theorem eq_of_mem_same_id {store : List Job} (hu : UniqueIds store) {j r : Job}
    (hj : j ∈ store) (hr : r ∈ store) (hid : r.id = j.id) : r = j := by
  by_contra hne
  have hsym : Symmetric (fun a b : Job => a.id ≠ b.id) := by
    intro x y hxy e
    exact hxy e.symm
  exact List.Pairwise.forall hsym hu hr hj hne hid

theorem lockableRow_iff {jobId : String} {j : Job} :
    lockableRow jobId j = true ↔
      j.id = jobId ∧ j.state = JobState.pending ∧ j.locked_by = none := by
  simp [lockableRow, Bool.and_eq_true, beq_iff_eq, and_assoc]

theorem eligibleRow_iff {now : Nat} {j : Job} :
    eligibleRow now j = true ↔
      j.state = JobState.pending ∧ j.locked_by = none ∧
        (j.scheduled_at = none ∨ ∃ t, j.scheduled_at = some t ∧ t ≤ now) := by
  unfold eligibleRow
  cases h : j.scheduled_at <;>
    simp [h, Bool.and_eq_true, beq_iff_eq, and_assoc]


/-- Claim C1: `lockJob` claims a job for a worker — transitioning it to
`processing` with `locked_by = workerId` and `locked_at` set — only when the
row is currently `pending` and unlocked; when no row satisfies that
condition, it returns nothing and the store is unchanged; rows not
satisfying the condition are never touched. -/
theorem lockJob_claim_correct (store : List Job) (jobId workerId : String)
    (now : Nat) :
    (∀ j, (lockJob jobId workerId now store).1 = some j →
      ∃ r ∈ store, r.id = jobId ∧ r.state = JobState.pending ∧
        r.locked_by = none ∧ j = lockUpdate workerId now r ∧
        j.state = JobState.processing ∧ j.locked_by = some workerId ∧
        j.locked_at = some now) ∧
    ((∀ r ∈ store, ¬(r.id = jobId ∧ r.state = JobState.pending ∧
        r.locked_by = none)) →
      (lockJob jobId workerId now store).1 = none ∧
      (lockJob jobId workerId now store).2 = store) ∧
    List.Forall₂ (fun r r' =>
        (r.id = jobId ∧ r.state = JobState.pending ∧ r.locked_by = none →
          r' = lockUpdate workerId now r) ∧
        (¬(r.id = jobId ∧ r.state = JobState.pending ∧ r.locked_by = none) →
          r' = r))
      store (lockJob jobId workerId now store).2 := by
  refine ⟨?_, ?_, ?_⟩
  · intro j hj
    rcases Option.map_eq_some'.mp hj with ⟨r, hfind, hupd⟩
    have hmem := List.mem_of_find?_eq_some hfind
    have hcond := lockableRow_iff.mp (List.find?_some hfind)
    exact ⟨r, hmem, hcond.1, hcond.2.1, hcond.2.2, hupd.symm,
      by simp [← hupd, lockUpdate], by simp [← hupd, lockUpdate],
      by simp [← hupd, lockUpdate]⟩
  · intro hnone
    have hfind : store.find? (lockableRow jobId) = none :=
      List.find?_eq_none.mpr fun r hr hrow =>
        hnone r hr (lockableRow_iff.mp hrow)
    constructor
    · simp [lockJob, hfind]
    · show store.map _ = store
      have : ∀ r ∈ store,
          (if lockableRow jobId r then lockUpdate workerId now r else r) = r := by
        intro r hr
        have : lockableRow jobId r = false := by
          cases hx : lockableRow jobId r with
          | false => rfl
          | true => exact absurd (lockableRow_iff.mp hx) (hnone r hr)
        simp [this]
      calc store.map (fun r =>
              if lockableRow jobId r then lockUpdate workerId now r else r)
          = store.map id := List.map_congr_left this
        _ = store := List.map_id store
  · show List.Forall₂ _ store (store.map _)
    rw [List.forall₂_map_right_iff, List.forall₂_same]
    intro r _
    constructor
    · intro hcond
      rw [if_pos (lockableRow_iff.mpr hcond)]
    · intro hcond
      rw [if_neg fun hrow => hcond (lockableRow_iff.mp (by simpa using hrow))]

/-- Witness for C1 at a concrete input: a single pending unlocked row is
claimed, and the returned job carries the lock fields. -/
theorem lockJob_claim_correct_witness :
    ∃ r ∈ [samplePending], r.id = "t1" ∧ r.state = JobState.pending ∧
      r.locked_by = none ∧ lockUpdate "w1" 5 samplePending = lockUpdate "w1" 5 r ∧
      (lockUpdate "w1" 5 samplePending).state = JobState.processing ∧
      (lockUpdate "w1" 5 samplePending).locked_by = some "w1" ∧
      (lockUpdate "w1" 5 samplePending).locked_at = some 5 :=
  (lockJob_claim_correct [samplePending] "t1" "w1" 5).1
    (lockUpdate "w1" 5 samplePending) (by decide)

/-- Claim C9: whenever `processNextJob` starts while the worker is not
already busy, the local current-job marker is `none` when the step
finishes, whatever the outcomes (including thrown errors) of the fetch,
lock and execute calls, so an unexpected error can never leave the Worker
permanently believing it is busy. -/
theorem processNextJob_clears_marker (w : WorkerState)
    (fetched : Outcome (Option Job)) (locked : Job → Outcome (Option Job))
    (executed : Job → Outcome Unit) (h : w.currentJob = none) :
    (processNextJob w fetched locked executed).currentJob = none := by
  unfold processNextJob
  split
  · exact h
  · repeat' split
    all_goals rfl

/-- Witness for C9: an idle running worker whose execution call throws
still ends the step with no current job. -/
theorem processNextJob_clears_marker_witness :
    (processNextJob ⟨"w1", true, none⟩ (Outcome.ok (some samplePending))
      (fun j => Outcome.ok (some (lockUpdate "w1" 5 j)))
      (fun _ => Outcome.threw "boom")).currentJob = none :=
  processNextJob_clears_marker ⟨"w1", true, none⟩ (Outcome.ok (some samplePending))
    (fun j => Outcome.ok (some (lockUpdate "w1" 5 j)))
    (fun _ => Outcome.threw "boom") rfl

/-- Claim C5: when the failure write goes through, `handleJobFailure`
schedules a deferred requeue exactly when the new attempt count
`k = attempts + 1` is still below `max_retries`, and the scheduled delay is
`backoffBase ^ k` seconds. -/
theorem handleJobFailure_backoff (job : Job) (msg : String) (base : Int)
    (now : Nat) (store store2 : List Job)
    (h : (handleJobFailure job msg base now store).1 = Except.ok store2) :
    (handleJobFailure job msg base now store).2 =
      if ((job.attempts + 1 : Nat) : Int) < job.max_retries
      then some (base ^ (job.attempts + 1)) else none := by
  simp only [handleJobFailure] at h ⊢
  cases hm : markJobFailed job.id msg (job.attempts + 1) job.max_retries now store with
  | error e =>
      rw [hm] at h
      exact absurd h (by simp)
  | ok p =>
      obtain ⟨ret, st2⟩ := p
      dsimp only
      by_cases hlt : ((job.attempts + 1 : Nat) : Int) < job.max_retries
      · rw [if_pos hlt, if_pos hlt]
      · rw [if_neg hlt, if_neg hlt]

/-- Witness for C5: first failure of a fresh job with `max_retries = 3`
and base 2 schedules a retry after `2^1 = 2` seconds. -/
theorem handleJobFailure_backoff_witness :
    (handleJobFailure sampleProcessing "err" 2 7 [sampleProcessing]).2 = some 2 := by
  rw [handleJobFailure_backoff sampleProcessing "err" 2 7 [sampleProcessing]
    [applyUpdate (failUpdate JobState.failed "err" 1) 7 sampleProcessing] rfl]
  decide

/-- Claim C3: `markJobFailed` sets the state to `dead` when
`attempts >= maxRetries` and to `failed` otherwise, records the error
message and the updated attempts on the returned row, clears both lock
fields, applies exactly that update to the rows with the given id and no
other row, and no other registry operation (claim, complete, requeue,
create) ever produces a `dead` row. -/
theorem markJobFailed_spec (jobId err : String) (attempts : Nat)
    (maxRetries : Int) (now : Nat) (store : List Job) :
    (∀ ret store', markJobFailed jobId err attempts maxRetries now store =
        Except.ok (ret, store') →
      ret.state = (if (attempts : Int) ≥ maxRetries then JobState.dead
        else JobState.failed) ∧
      ret.last_error = some err ∧ ret.attempts = attempts ∧
      ret.locked_by = none ∧ ret.locked_at = none ∧
      List.Forall₂ (fun r r' =>
        (r.id = jobId →
          r' = applyUpdate (failUpdate (if (attempts : Int) ≥ maxRetries
            then JobState.dead else JobState.failed) err attempts) now r) ∧
        (r.id ≠ jobId → r' = r)) store store') ∧
    (∀ workerId now2, ∀ r' ∈ (lockJob jobId workerId now2 store).2,
      r'.state = JobState.dead → r' ∈ store) ∧
    (∀ out now2 ret store', markJobCompleted jobId out now2 store =
        Except.ok (ret, store') →
      ∀ r' ∈ store', r'.state = JobState.dead → r' ∈ store) ∧
    (∀ now2 ret store', requeueFailedJob jobId now2 store =
        Except.ok (ret, store') →
      ∀ r' ∈ store', r'.state = JobState.dead → r' ∈ store) ∧
    (∀ spec now2 job store', enqueueJob spec now2 store =
        Except.ok (job, store') →
      ∀ r' ∈ store', r'.state = JobState.dead → r' ∈ store) := by
  refine ⟨?_, ?_, ?_, ?_, ?_⟩
  · intro ret store' h
    simp only [markJobFailed] at h
    rcases updateJob_ok h with ⟨j, hfind, hret, hmap⟩
    subst hret
    subst hmap
    refine ⟨by simp [applyUpdate, failUpdate], by simp [applyUpdate, failUpdate],
      by simp [applyUpdate, failUpdate], by simp [applyUpdate, failUpdate],
      by simp [applyUpdate, failUpdate], ?_⟩
    rw [List.forall₂_map_right_iff, List.forall₂_same]
    intro r _
    constructor
    · intro hid
      rw [if_pos (beq_iff_eq.mpr hid)]
    · intro hid
      rw [if_neg (by simpa using hid)]
  · intro workerId now2 r' hr' hdead
    simp only [lockJob] at hr'
    rcases mem_map_update hr' with ⟨r, hr, he⟩
    by_cases hp : lockableRow jobId r
    · rw [if_pos hp] at he
      subst he
      simp [lockUpdate] at hdead
    · rw [if_neg hp] at he
      subst he
      exact hr
  · intro out now2 ret store' h r' hr' hdead
    rcases updateJob_ok h with ⟨j, hfind, hret, hmap⟩
    subst hmap
    rcases mem_map_update hr' with ⟨r, hr, he⟩
    by_cases hp : (r.id == jobId)
    · rw [if_pos hp] at he
      subst he
      simp [applyUpdate, completeUpdate] at hdead
    · rw [if_neg hp] at he
      subst he
      exact hr
  · intro now2 ret store' h r' hr' hdead
    rcases updateJob_ok h with ⟨j, hfind, hret, hmap⟩
    subst hmap
    rcases mem_map_update hr' with ⟨r, hr, he⟩
    by_cases hp : (r.id == jobId)
    · rw [if_pos hp] at he
      subst he
      simp [applyUpdate, requeueUpdate] at hdead
    · rw [if_neg hp] at he
      subst he
      exact hr
  · intro spec now2 job store' h r' hr' hdead
    rcases enqueueJob_ok h with ⟨hfresh, hjob, hmap⟩
    subst hmap
    rcases List.mem_append.mp hr' with hl | hrgt
    · exact hl
    · have : r' = freshJob spec now2 := by simpa using hrgt
      subst this
      simp [freshJob] at hdead

/-- Witness for C3: failing a held job with `attempts = maxRetries = 3`
produces the `dead` row with the recorded error and cleared locks. -/
theorem markJobFailed_spec_witness :
    (applyUpdate (failUpdate JobState.dead "boom" 3) 7 sampleProcessing).state =
      (if ((3 : Nat) : Int) ≥ 3 then JobState.dead else JobState.failed) ∧
    (applyUpdate (failUpdate JobState.dead "boom" 3) 7
      sampleProcessing).last_error = some "boom" ∧
    (applyUpdate (failUpdate JobState.dead "boom" 3) 7
      sampleProcessing).attempts = 3 ∧
    (applyUpdate (failUpdate JobState.dead "boom" 3) 7
      sampleProcessing).locked_by = none ∧
    (applyUpdate (failUpdate JobState.dead "boom" 3) 7
      sampleProcessing).locked_at = none ∧
    List.Forall₂ (fun r r' =>
      (r.id = "t1" →
        r' = applyUpdate (failUpdate (if ((3 : Nat) : Int) ≥ 3
          then JobState.dead else JobState.failed) "boom" 3) 7 r) ∧
      (r.id ≠ "t1" → r' = r))
      [sampleProcessing]
      [applyUpdate (failUpdate JobState.dead "boom" 3) 7 sampleProcessing] :=
  (markJobFailed_spec "t1" "boom" 3 3 7 [sampleProcessing]).1
    (applyUpdate (failUpdate JobState.dead "boom" 3) 7 sampleProcessing)
    [applyUpdate (failUpdate JobState.dead "boom" 3) 7 sampleProcessing] rfl

/-- Claim C6 (amended): `requeueFailedJob` sets the matched row to `pending`
and clears both lock fields while leaving id, command, attempts,
max_retries and last_error unchanged, and never touches rows with another
id; the function itself carries no check that the row was `failed` or
`dead` — that restriction comes from its callers. -/
theorem requeueFailedJob_spec (jobId : String) (now : Nat) (store : List Job) :
    ∀ ret store', requeueFailedJob jobId now store = Except.ok (ret, store') →
      ret.state = JobState.pending ∧ ret.locked_by = none ∧
      ret.locked_at = none ∧
      (∃ r ∈ store, r.id = jobId ∧ ret.id = r.id ∧ ret.command = r.command ∧
        ret.attempts = r.attempts ∧ ret.max_retries = r.max_retries ∧
        ret.last_error = r.last_error) ∧
      List.Forall₂ (fun r r' =>
        (r.id = jobId → r' = applyUpdate requeueUpdate now r ∧
          r'.state = JobState.pending ∧ r'.locked_by = none ∧
          r'.locked_at = none ∧ r'.id = r.id ∧ r'.command = r.command ∧
          r'.attempts = r.attempts ∧ r'.max_retries = r.max_retries ∧
          r'.last_error = r.last_error) ∧
        (r.id ≠ jobId → r' = r)) store store' := by
  intro ret store' h
  rcases updateJob_ok h with ⟨j, hfind, hret, hmap⟩
  subst hret
  subst hmap
  have hjid := List.find?_some hfind
  have hjid2 : j.id = jobId := by simpa using hjid
  refine ⟨by simp [applyUpdate, requeueUpdate], by simp [applyUpdate, requeueUpdate],
    by simp [applyUpdate, requeueUpdate],
    ⟨j, List.mem_of_find?_eq_some hfind, hjid2,
      by simp [applyUpdate, requeueUpdate], by simp [applyUpdate, requeueUpdate],
      by simp [applyUpdate, requeueUpdate], by simp [applyUpdate, requeueUpdate],
      by simp [applyUpdate, requeueUpdate]⟩, ?_⟩
  rw [List.forall₂_map_right_iff, List.forall₂_same]
  intro r _
  constructor
  · intro hid
    rw [if_pos (beq_iff_eq.mpr hid)]
    exact ⟨rfl, by simp [applyUpdate, requeueUpdate], by simp [applyUpdate, requeueUpdate],
      by simp [applyUpdate, requeueUpdate], by simp [applyUpdate, requeueUpdate],
      by simp [applyUpdate, requeueUpdate], by simp [applyUpdate, requeueUpdate],
      by simp [applyUpdate, requeueUpdate], by simp [applyUpdate, requeueUpdate]⟩
  · intro hid
    rw [if_neg (by simpa using hid)]

/-- Counterexample to C6 as stated: `requeueFailedJob` has no state guard,
so a `completed` job is also transitioned to `pending` — not only `failed`
or `dead` rows. -/
theorem requeueFailedJob_from_completed :
    sampleCompleted.state = JobState.completed ∧
    requeueFailedJob "t1" 9 [sampleCompleted] =
      Except.ok (applyUpdate requeueUpdate 9 sampleCompleted,
        [applyUpdate requeueUpdate 9 sampleCompleted]) ∧
    (applyUpdate requeueUpdate 9 sampleCompleted).state = JobState.pending :=
  ⟨rfl, rfl, rfl⟩

/-- Witness for C6: requeueing the held sample row yields `pending` with
locks cleared and attempts untouched. -/
theorem requeueFailedJob_spec_witness :
    (applyUpdate requeueUpdate 3 sampleProcessing).state = JobState.pending ∧
    (applyUpdate requeueUpdate 3 sampleProcessing).locked_by = none ∧
    (applyUpdate requeueUpdate 3 sampleProcessing).locked_at = none ∧
    (∃ r ∈ [sampleProcessing], r.id = "t1" ∧
      (applyUpdate requeueUpdate 3 sampleProcessing).id = r.id ∧
      (applyUpdate requeueUpdate 3 sampleProcessing).command = r.command ∧
      (applyUpdate requeueUpdate 3 sampleProcessing).attempts = r.attempts ∧
      (applyUpdate requeueUpdate 3 sampleProcessing).max_retries = r.max_retries ∧
      (applyUpdate requeueUpdate 3 sampleProcessing).last_error = r.last_error) ∧
    List.Forall₂ (fun r r' =>
      (r.id = "t1" → r' = applyUpdate requeueUpdate 3 r ∧
        r'.state = JobState.pending ∧ r'.locked_by = none ∧
        r'.locked_at = none ∧ r'.id = r.id ∧ r'.command = r.command ∧
        r'.attempts = r.attempts ∧ r'.max_retries = r.max_retries ∧
        r'.last_error = r.last_error) ∧
      (r.id ≠ "t1" → r' = r))
      [sampleProcessing] [applyUpdate requeueUpdate 3 sampleProcessing] :=
  requeueFailedJob_spec "t1" 3 [sampleProcessing]
    (applyUpdate requeueUpdate 3 sampleProcessing)
    [applyUpdate requeueUpdate 3 sampleProcessing] rfl

theorem jsOrNum_ne_zero {v : Option Int} {d : Int} (hd : d ≠ 0) :
    jsOrNum v d ≠ 0 := by
  cases v with
  | none => simpa [jsOrNum] using hd
  | some n =>
      by_cases hn : n = 0
      · simpa [jsOrNum, hn] using hd
      · simp only [jsOrNum, if_neg hn]
        exact hn

/-- Claim C8: `enqueueJob` inserts a fresh row with `state = pending`,
`attempts = 0`, the given command, the optional `scheduled_at`, and
`max_retries` resolved by JavaScript or-defaulting (`3` inside
`enqueueJob`; the configured value, then `3`, on the CLI path when the
spec omits it); it returns the stored record, and fails with the
duplicate-key error when a row with the same id already exists. -/
theorem enqueueJob_spec (spec : JobSpec) (now : Nat) (store : List Job)
    (configMr : Option Int) :
    ((∀ r ∈ store, r.id ≠ spec.id) →
      enqueueJob spec now store =
        Except.ok (freshJob spec now, store ++ [freshJob spec now]) ∧
      (freshJob spec now).state = JobState.pending ∧
      (freshJob spec now).attempts = 0 ∧
      (freshJob spec now).command = spec.command ∧
      (freshJob spec now).id = spec.id ∧
      (freshJob spec now).scheduled_at = spec.scheduled_at ∧
      (freshJob spec now).max_retries = jsOrNum spec.max_retries 3) ∧
    ((∃ r ∈ store, r.id = spec.id) →
      enqueueJob spec now store =
        Except.error "duplicate key value violates unique constraint") ∧
    (spec.max_retries = none →
      cliResolvedMaxRetries spec.max_retries configMr = jsOrNum configMr 3) := by
  refine ⟨?_, ?_, ?_⟩
  · intro hno
    have hany : store.any (fun j => j.id == spec.id) = false :=
      List.any_eq_false.mpr fun r hr => by simpa using hno r hr
    exact ⟨by simp [enqueueJob, hany], rfl, rfl, rfl, rfl, rfl, rfl⟩
  · rintro ⟨r, hr, hid⟩
    have hany : store.any (fun j => j.id == spec.id) = true :=
      List.any_eq_true.mpr ⟨r, hr, by simpa using hid⟩
    simp [enqueueJob, hany]
  · intro h
    simp [cliResolvedMaxRetries, h, jsOrNum]

/-- Witness for C8: enqueueing into the empty store succeeds and stores the
pending record. -/
theorem enqueueJob_spec_witness :
    enqueueJob sampleSpec 0 [] =
      Except.ok (freshJob sampleSpec 0, [] ++ [freshJob sampleSpec 0]) ∧
    (freshJob sampleSpec 0).state = JobState.pending ∧
    (freshJob sampleSpec 0).attempts = 0 ∧
    (freshJob sampleSpec 0).command = sampleSpec.command ∧
    (freshJob sampleSpec 0).id = sampleSpec.id ∧
    (freshJob sampleSpec 0).scheduled_at = sampleSpec.scheduled_at ∧
    (freshJob sampleSpec 0).max_retries = jsOrNum sampleSpec.max_retries 3 :=
  (enqueueJob_spec sampleSpec 0 [] none).1 (by simp)

/-- Claim C10: a zero (or otherwise falsy) `max_retries` in the job spec is
silently replaced by the default — `3` in `enqueueJob`, the configured
value (then `3`) on the CLI path — so a created job never has
`max_retries = 0`; no validation rejects a zero or negative value at the
public interface: zero is substituted and a negative value is accepted
unchanged. -/
theorem enqueue_maxRetries_defaulting (spec : JobSpec) (now : Nat)
    (configMr : Option Int) :
    (freshJob spec now).max_retries ≠ 0 ∧
    cliResolvedMaxRetries spec.max_retries configMr ≠ 0 ∧
    (spec.max_retries = some 0 → (freshJob spec now).max_retries = 3) ∧
    cliResolvedMaxRetries (some 0) configMr = jsOrNum configMr 3 ∧
    (∀ n : Int, n < 0 → ∀ store : List Job, (∀ r ∈ store, r.id ≠ spec.id) →
      enqueueJob { spec with max_retries := some n } now store =
        Except.ok (freshJob { spec with max_retries := some n } now,
          store ++ [freshJob { spec with max_retries := some n } now]) ∧
      (freshJob { spec with max_retries := some n } now).max_retries = n) := by
  refine ⟨?_, ?_, ?_, ?_, ?_⟩
  · exact jsOrNum_ne_zero (by norm_num)
  · exact jsOrNum_ne_zero (jsOrNum_ne_zero (by norm_num))
  · intro h
    simp [freshJob, h, jsOrNum]
  · simp [cliResolvedMaxRetries, jsOrNum]
  · intro n hn store hno
    have hany : store.any (fun j => j.id == spec.id) = false :=
      List.any_eq_false.mpr fun r hr => by simpa using hno r hr
    refine ⟨by simp [enqueueJob, hany], ?_⟩
    simp [freshJob, jsOrNum, hn.ne]

/-- Witness for C10: a spec with `max_retries = -1` is accepted and stored
with `max_retries = -1`. -/
theorem enqueue_maxRetries_defaulting_witness :
    enqueueJob { sampleSpec with max_retries := some (-1) } 0 [] =
      Except.ok (freshJob { sampleSpec with max_retries := some (-1) } 0,
        [] ++ [freshJob { sampleSpec with max_retries := some (-1) } 0]) ∧
    (freshJob { sampleSpec with max_retries := some (-1) } 0).max_retries = -1 :=
  (enqueue_maxRetries_defaulting sampleSpec 0 none).2.2.2.2 (-1) (by norm_num)
    [] (by simp)

theorem foldl_olderRow_mem (j : Job) (js : List Job) :
    js.foldl olderRow j ∈ j :: js := by
  induction js generalizing j with
  | nil => simp
  | cons b bs ih =>
      simp only [List.foldl_cons]
      rcases List.mem_cons.mp (ih (olderRow j b)) with h1 | h2
      · rw [h1]
        unfold olderRow
        split
        · simp
        · simp
      · simp [List.mem_cons, h2]

theorem foldl_olderRow_le (j : Job) (js : List Job) :
    ∀ x ∈ j :: js, (js.foldl olderRow j).created_at ≤ x.created_at := by
  induction js generalizing j with
  | nil =>
      intro x hx
      rw [List.mem_singleton.mp hx]
      exact le_refl _
  | cons b bs ih =>
      intro x hx
      simp only [List.foldl_cons]
      have hj : (olderRow j b).created_at ≤ j.created_at := by
        unfold olderRow; split <;> omega
      have hb : (olderRow j b).created_at ≤ b.created_at := by
        unfold olderRow; split <;> omega
      have hstart : (bs.foldl olderRow (olderRow j b)).created_at ≤
          (olderRow j b).created_at :=
        ih (olderRow j b) (olderRow j b) (List.mem_cons_self _ _)
      rcases List.mem_cons.mp hx with rfl | hx2
      · exact le_trans hstart hj
      · rcases List.mem_cons.mp hx2 with rfl | hx3
        · exact le_trans hstart hb
        · exact ih (olderRow j b) x (List.mem_cons.mpr (Or.inr hx3))

/-- Claim C7: `getNextPendingJob` returns an eligible row — `pending`,
unlocked, `scheduled_at` null or not in the future — of minimal
`created_at`; it returns nothing exactly when no row is eligible; a row
scheduled in the future is never returned before its instant, and once the
instant has passed such a row makes the result nonempty (and is itself
returned when it is the only eligible row). -/
theorem getNextPendingJob_spec (now : Nat) (store : List Job) :
    (∀ j, getNextPendingJob now store = some j →
      j ∈ store ∧ j.state = JobState.pending ∧ j.locked_by = none ∧
      (j.scheduled_at = none ∨ ∃ t, j.scheduled_at = some t ∧ t ≤ now) ∧
      ∀ r ∈ store, r.state = JobState.pending → r.locked_by = none →
        (r.scheduled_at = none ∨ ∃ t, r.scheduled_at = some t ∧ t ≤ now) →
        j.created_at ≤ r.created_at) ∧
    (getNextPendingJob now store = none ↔
      ∀ r ∈ store, ¬(r.state = JobState.pending ∧ r.locked_by = none ∧
        (r.scheduled_at = none ∨ ∃ t, r.scheduled_at = some t ∧ t ≤ now))) ∧
    (∀ j t, j.scheduled_at = some t → now < t →
      getNextPendingJob now store ≠ some j) ∧
    (∀ j t, j ∈ store → j.state = JobState.pending → j.locked_by = none →
      j.scheduled_at = some t → t ≤ now →
      (∃ r, getNextPendingJob now store = some r) ∧
      ((∀ r ∈ store, r.state = JobState.pending → r.locked_by = none →
          (r.scheduled_at = none ∨ ∃ t2, r.scheduled_at = some t2 ∧ t2 ≤ now) →
          r = j) → getNextPendingJob now store = some j)) := by
  have hsome : ∀ j, getNextPendingJob now store = some j →
      j ∈ store.filter (eligibleRow now) := by
    intro j hj
    unfold getNextPendingJob at hj
    cases hf : store.filter (eligibleRow now) with
    | nil => rw [hf] at hj; exact absurd hj (by simp)
    | cons a as =>
        rw [hf] at hj
        have := foldl_olderRow_mem a as
        rw [Option.some.injEq] at hj
        rw [hf, ← hj] at *
        exact this
  refine ⟨?_, ?_, ?_, ?_⟩
  · intro j hj
    have hmem := hsome j hj
    have hel := eligibleRow_iff.mp (List.mem_filter.mp hmem).2
    refine ⟨(List.mem_filter.mp hmem).1, hel.1, hel.2.1, hel.2.2, ?_⟩
    intro r hr hrs hrl hrt
    have hrf : r ∈ store.filter (eligibleRow now) :=
      List.mem_filter.mpr ⟨hr, eligibleRow_iff.mpr ⟨hrs, hrl, hrt⟩⟩
    unfold getNextPendingJob at hj
    cases hf : store.filter (eligibleRow now) with
    | nil => rw [hf] at hrf; exact absurd hrf (by simp)
    | cons a as =>
        rw [hf] at hj hrf
        rw [Option.some.injEq] at hj
        rw [← hj]
        exact foldl_olderRow_le a as r hrf
  · constructor
    · intro hnone r hr hel
      have hrf : r ∈ store.filter (eligibleRow now) :=
        List.mem_filter.mpr ⟨hr, eligibleRow_iff.mpr hel⟩
      unfold getNextPendingJob at hnone
      cases hf : store.filter (eligibleRow now) with
      | nil => rw [hf] at hrf; exact absurd hrf (by simp)
      | cons a as => rw [hf] at hnone; exact absurd hnone (by simp)
    · intro hall
      unfold getNextPendingJob
      have hf : store.filter (eligibleRow now) = [] :=
        List.filter_eq_nil_iff.mpr fun r hr => by
          intro hel
          exact hall r hr (eligibleRow_iff.mp hel)
      rw [hf]
  · intro j t hsched hfut hj
    have hmem := hsome j hj
    have hel := eligibleRow_iff.mp (List.mem_filter.mp hmem).2
    rcases hel.2.2 with hn | ⟨t2, ht2, hle⟩
    · rw [hsched] at hn; exact absurd hn (by simp)
    · rw [hsched, Option.some.injEq] at ht2
      omega
  · intro j t hj hjs hjl hsched hle
    have hjel : eligibleRow now j = true :=
      eligibleRow_iff.mpr ⟨hjs, hjl, Or.inr ⟨t, hsched, hle⟩⟩
    have hjf : j ∈ store.filter (eligibleRow now) :=
      List.mem_filter.mpr ⟨hj, hjel⟩
    constructor
    · unfold getNextPendingJob
      cases hf : store.filter (eligibleRow now) with
      | nil => rw [hf] at hjf; exact absurd hjf (by simp)
      | cons a as => exact ⟨as.foldl olderRow a, rfl⟩
    · intro huniq
      unfold getNextPendingJob
      cases hf : store.filter (eligibleRow now) with
      | nil => rw [hf] at hjf; exact absurd hjf (by simp)
      | cons a as =>
          have hres : as.foldl olderRow a ∈ store.filter (eligibleRow now) := by
            rw [hf]; exact foldl_olderRow_mem a as
          have hresmem := List.mem_filter.mp hres
          have hrese := eligibleRow_iff.mp hresmem.2
          show some (List.foldl olderRow a as) = some j
          rw [huniq (as.foldl olderRow a) hresmem.1 hrese.1 hrese.2.1 hrese.2.2]

/-- Witness for C7: with one pending unlocked row whose schedule time has
passed, that row is returned (both parts of the at-or-after clause). -/
theorem getNextPendingJob_spec_witness :
    (∃ r, getNextPendingJob 6 [{ samplePending with scheduled_at := some 5 }]
      = some r) ∧
    ((∀ r ∈ [{ samplePending with scheduled_at := some 5 }],
        r.state = JobState.pending → r.locked_by = none →
        (r.scheduled_at = none ∨ ∃ t2, r.scheduled_at = some t2 ∧ t2 ≤ 6) →
        r = { samplePending with scheduled_at := some 5 }) →
      getNextPendingJob 6 [{ samplePending with scheduled_at := some 5 }]
        = some { samplePending with scheduled_at := some 5 }) :=
  (getNextPendingJob_spec 6 [{ samplePending with scheduled_at := some 5 }]).2.2.2
    { samplePending with scheduled_at := some 5 } 5 (by simp) rfl rfl rfl
    (by norm_num)

@[simp] theorem applyUpdate_state (f : Job → Job) (now : Nat) (j : Job) :
    (applyUpdate f now j).state = (f j).state := rfl

@[simp] theorem applyUpdate_locked_by (f : Job → Job) (now : Nat) (j : Job) :
    (applyUpdate f now j).locked_by = (f j).locked_by := rfl

@[simp] theorem applyUpdate_locked_at (f : Job → Job) (now : Nat) (j : Job) :
    (applyUpdate f now j).locked_at = (f j).locked_at := rfl

@[simp] theorem applyUpdate_attempts (f : Job → Job) (now : Nat) (j : Job) :
    (applyUpdate f now j).attempts = (f j).attempts := rfl

@[simp] theorem applyUpdate_max_retries (f : Job → Job) (now : Nat) (j : Job) :
    (applyUpdate f now j).max_retries = (f j).max_retries := rfl

@[simp] theorem applyUpdate_id (f : Job → Job) (now : Nat) (j : Job) :
    (applyUpdate f now j).id = (f j).id := rfl

@[simp] theorem failUpdate_state (st : JobState) (e : String) (a : Nat) (j : Job) :
    (failUpdate st e a j).state = st := rfl

@[simp] theorem failUpdate_locked_by (st : JobState) (e : String) (a : Nat) (j : Job) :
    (failUpdate st e a j).locked_by = none := rfl

@[simp] theorem failUpdate_attempts (st : JobState) (e : String) (a : Nat) (j : Job) :
    (failUpdate st e a j).attempts = a := rfl

@[simp] theorem failUpdate_max_retries (st : JobState) (e : String) (a : Nat) (j : Job) :
    (failUpdate st e a j).max_retries = j.max_retries := rfl

@[simp] theorem failUpdate_id (st : JobState) (e : String) (a : Nat) (j : Job) :
    (failUpdate st e a j).id = j.id := rfl

@[simp] theorem completeUpdate_state (o : String) (j : Job) :
    (completeUpdate o j).state = JobState.completed := rfl

@[simp] theorem completeUpdate_locked_by (o : String) (j : Job) :
    (completeUpdate o j).locked_by = none := rfl

@[simp] theorem completeUpdate_attempts (o : String) (j : Job) :
    (completeUpdate o j).attempts = j.attempts := rfl

@[simp] theorem completeUpdate_max_retries (o : String) (j : Job) :
    (completeUpdate o j).max_retries = j.max_retries := rfl

@[simp] theorem completeUpdate_id (o : String) (j : Job) :
    (completeUpdate o j).id = j.id := rfl

@[simp] theorem requeueUpdate_state (j : Job) :
    (requeueUpdate j).state = JobState.pending := rfl

@[simp] theorem requeueUpdate_locked_by (j : Job) :
    (requeueUpdate j).locked_by = none := rfl

@[simp] theorem requeueUpdate_attempts (j : Job) :
    (requeueUpdate j).attempts = j.attempts := rfl

@[simp] theorem requeueUpdate_max_retries (j : Job) :
    (requeueUpdate j).max_retries = j.max_retries := rfl

@[simp] theorem requeueUpdate_id (j : Job) :
    (requeueUpdate j).id = j.id := rfl

@[simp] theorem lockUpdate_state (w : String) (now : Nat) (j : Job) :
    (lockUpdate w now j).state = JobState.processing := rfl

@[simp] theorem lockUpdate_locked_by (w : String) (now : Nat) (j : Job) :
    (lockUpdate w now j).locked_by = some w := rfl

@[simp] theorem lockUpdate_attempts (w : String) (now : Nat) (j : Job) :
    (lockUpdate w now j).attempts = j.attempts := rfl

@[simp] theorem lockUpdate_max_retries (w : String) (now : Nat) (j : Job) :
    (lockUpdate w now j).max_retries = j.max_retries := rfl

@[simp] theorem lockUpdate_id (w : String) (now : Nat) (j : Job) :
    (lockUpdate w now j).id = j.id := rfl

theorem handleJobFailure_ok {job : Job} {msg : String} {base : Int}
    {now : Nat} {store store' : List Job}
    (h : (handleJobFailure job msg base now store).1 = Except.ok store') :
    ∃ ret, markJobFailed job.id msg (job.attempts + 1) job.max_retries now
      store = Except.ok (ret, store') := by
  simp only [handleJobFailure] at h
  cases hm : markJobFailed job.id msg (job.attempts + 1) job.max_retries now store with
  | error e =>
      rw [hm] at h
      exact absurd h (by simp)
  | ok p =>
      obtain ⟨ret, st2⟩ := p
      rw [hm] at h
      dsimp only at h
      have hst : st2 = store' := by
        split at h
        · simpa using h
        · simpa using h
      exact ⟨ret, by rw [hst]⟩

/-- Claim C4: in every store reachable through the registry operations
(create, claim, complete, fail, requeue), every row satisfies
`locked_by != null` if and only if `state == processing`. -/
theorem locked_iff_processing (store : List Job) (h : Reachable store) :
    ∀ j ∈ store, (j.locked_by ≠ none ↔ j.state = JobState.processing) := by
  induction h with
  | empty =>
      intro j hj
      exact absurd hj (by simp)
  | step hr hstep ih =>
      intro j hj
      cases hstep with
      | enqueue spec now job hok =>
          rcases enqueueJob_ok hok with ⟨hno, hjob, hmap⟩
          subst hmap
          rcases List.mem_append.mp hj with hl | hrgt
          · exact ih j hl
          · have hje : j = freshJob spec now := by simpa using hrgt
            subst hje
            simp [freshJob]
      | claim jobId workerId now =>
          simp only [lockJob] at hj
          rcases mem_map_update hj with ⟨r, hrmem, he⟩
          by_cases hp : lockableRow jobId r
          · rw [if_pos hp] at he
            subst he
            simp
          · rw [if_neg hp] at he
            subst he
            exact ih _ hrmem
      | complete jrow out now ret hjrow hs hok =>
          rcases updateJob_ok hok with ⟨j0, hfind, hret, hmap⟩
          subst hmap
          rcases mem_map_update hj with ⟨r, hrmem, he⟩
          by_cases hp : (r.id == jrow.id)
          · rw [if_pos hp] at he
            subst he
            simp
          · rw [if_neg hp] at he
            subst he
            exact ih _ hrmem
      | fail jrow msg base now hjrow hs hok =>
          rcases handleJobFailure_ok hok with ⟨ret, hmk⟩
          simp only [markJobFailed] at hmk
          rcases updateJob_ok hmk with ⟨j0, hfind, hret, hmap⟩
          subst hmap
          rcases mem_map_update hj with ⟨r, hrmem, he⟩
          by_cases hp : (r.id == jrow.id)
          · rw [if_pos hp] at he
            subst he
            simp only [applyUpdate_locked_by, failUpdate_locked_by,
              applyUpdate_state, failUpdate_state]
            constructor
            · intro hlb
              exact absurd rfl hlb
            · intro hst
              split at hst <;> exact absurd hst (by simp)
          · rw [if_neg hp] at he
            subst he
            exact ih _ hrmem
      | retryRequeue jrow now ret hjrow hs hok =>
          rcases updateJob_ok hok with ⟨j0, hfind, hret, hmap⟩
          subst hmap
          rcases mem_map_update hj with ⟨r, hrmem, he⟩
          by_cases hp : (r.id == jrow.id)
          · rw [if_pos hp] at he
            subst he
            simp
          · rw [if_neg hp] at he
            subst he
            exact ih _ hrmem
      | dlqRetry jrow now ret hjrow hs hok =>
          rcases updateJob_ok hok with ⟨j0, hfind, hret, hmap⟩
          subst hmap
          rcases mem_map_update hj with ⟨r, hrmem, he⟩
          by_cases hp : (r.id == jrow.id)
          · rw [if_pos hp] at he
            subst he
            simp
          · rw [if_neg hp] at he
            subst he
            exact ih _ hrmem

/-- Witness for C4 at a concrete reachable store: after one enqueue the
single pending row is unlocked. -/
theorem locked_iff_processing_witness :
    samplePending.locked_by ≠ none ↔ samplePending.state = JobState.processing :=
  locked_iff_processing [samplePending]
    (Reachable.step Reachable.empty (Step.enqueue sampleSpec 0 samplePending rfl))
    samplePending (by simp)

theorem reachableND_invariant (store : List Job) (h : ReachableND store) :
    UniqueIds store ∧ ∀ j ∈ store,
      1 ≤ j.max_retries ∧
      (j.state = JobState.dead → (j.attempts : Int) = j.max_retries) ∧
      (j.state ≠ JobState.dead → (j.attempts : Int) < j.max_retries) := by
  induction h with
  | empty =>
      refine ⟨List.Pairwise.nil, ?_⟩
      intro j hj
      exact absurd hj (by simp)
  | step hr hstep ih =>
      obtain ⟨ihu, ihinv⟩ := ih
      cases hstep with
      | enqueue spec now job hmr hok =>
          rcases enqueueJob_ok hok with ⟨hno, hjob, hmap⟩
          subst hmap
          constructor
          · unfold UniqueIds
            rw [List.pairwise_append]
            refine ⟨ihu, List.pairwise_singleton _ _, ?_⟩
            intro a ha b hb
            have hb2 : b = freshJob spec now := by simpa using hb
            subst hb2
            simpa [freshJob] using hno a ha
          · intro j hj
            rcases List.mem_append.mp hj with hl | hrg
            · exact ihinv j hl
            · have hje : j = freshJob spec now := by simpa using hrg
              subst hje
              refine ⟨by simpa [freshJob] using hmr, ?_, ?_⟩
              · intro hdead
                exact absurd hdead (by simp [freshJob])
              · intro _
                have hmr2 : 1 ≤ jsOrNum spec.max_retries 3 := hmr
                simp only [freshJob]
                omega
      | claim jobId workerId now =>
          constructor
          · exact uniqueIds_map_update (lockUpdate workerId now)
              (lockableRow jobId) (fun j => rfl) ihu
          · intro j hj
            simp only [lockJob] at hj
            rcases mem_map_update hj with ⟨r, hrmem, he⟩
            by_cases hp : lockableRow jobId r
            · rw [if_pos hp] at he
              subst he
              have hcond := lockableRow_iff.mp hp
              obtain ⟨hmr1, hdead, hnd⟩ := ihinv r hrmem
              refine ⟨by simpa using hmr1, ?_, ?_⟩
              · intro hds
                exact absurd hds (by simp)
              · intro _
                have hlt : (r.attempts : Int) < r.max_retries :=
                  hnd (by simp [hcond.2.1])
                simpa using hlt
            · rw [if_neg hp] at he
              subst he
              exact ihinv _ hrmem
      | complete jrow out now ret hjrow hs hok =>
          rcases updateJob_ok hok with ⟨j0, hfind, hret, hmap⟩
          subst hmap
          constructor
          · exact uniqueIds_map_update (applyUpdate (completeUpdate out) now)
              (fun r => r.id == jrow.id) (fun j => rfl) ihu
          · intro j hj
            rcases mem_map_update hj with ⟨r, hrmem, he⟩
            by_cases hp : (r.id == jrow.id)
            · rw [if_pos hp] at he
              subst he
              have hreq : r = jrow :=
                eq_of_mem_same_id ihu hjrow hrmem (by simpa using hp)
              subst hreq
              obtain ⟨hmr1, hdead, hnd⟩ := ihinv r hrmem
              refine ⟨by simpa using hmr1, ?_, ?_⟩
              · intro hds
                exact absurd hds (by simp)
              · intro _
                have hlt : (r.attempts : Int) < r.max_retries :=
                  hnd (by simp [hs])
                simpa using hlt
            · rw [if_neg hp] at he
              subst he
              exact ihinv _ hrmem
      | fail jrow msg base now hjrow hs hok =>
          rcases handleJobFailure_ok hok with ⟨ret, hmk⟩
          simp only [markJobFailed] at hmk
          rcases updateJob_ok hmk with ⟨j0, hfind, hret, hmap⟩
          subst hmap
          constructor
          · exact uniqueIds_map_update
              (applyUpdate (failUpdate
                (if ((jrow.attempts + 1 : Nat) : Int) ≥ jrow.max_retries
                  then JobState.dead else JobState.failed) msg
                (jrow.attempts + 1)) now)
              (fun r => r.id == jrow.id) (fun j => rfl) ihu
          · intro j hj
            rcases mem_map_update hj with ⟨r, hrmem, he⟩
            by_cases hp : (r.id == jrow.id)
            · rw [if_pos hp] at he
              subst he
              have hreq : r = jrow :=
                eq_of_mem_same_id ihu hjrow hrmem (by simpa using hp)
              subst hreq
              obtain ⟨hmr1, hdead, hnd⟩ := ihinv r hrmem
              have hlt : (r.attempts : Int) < r.max_retries := hnd (by simp [hs])
              by_cases hc : ((r.attempts + 1 : Nat) : Int) ≥ r.max_retries
              · refine ⟨by simpa using hmr1, ?_, ?_⟩
                · intro _
                  simp only [applyUpdate_attempts, failUpdate_attempts,
                    applyUpdate_max_retries, failUpdate_max_retries]
                  omega
                · intro hnds
                  refine absurd ?_ hnds
                  rw [applyUpdate_state, failUpdate_state, if_pos hc]
              · refine ⟨by simpa using hmr1, ?_, ?_⟩
                · intro hds
                  rw [applyUpdate_state, failUpdate_state, if_neg hc] at hds
                  exact absurd hds (by simp)
                · intro _
                  simp only [applyUpdate_attempts, failUpdate_attempts,
                    applyUpdate_max_retries, failUpdate_max_retries]
                  omega
            · rw [if_neg hp] at he
              subst he
              exact ihinv _ hrmem
      | retryRequeue jrow now ret hjrow hs hok =>
          rcases updateJob_ok hok with ⟨j0, hfind, hret, hmap⟩
          subst hmap
          constructor
          · exact uniqueIds_map_update (applyUpdate requeueUpdate now)
              (fun r => r.id == jrow.id) (fun j => rfl) ihu
          · intro j hj
            rcases mem_map_update hj with ⟨r, hrmem, he⟩
            by_cases hp : (r.id == jrow.id)
            · rw [if_pos hp] at he
              subst he
              have hreq : r = jrow :=
                eq_of_mem_same_id ihu hjrow hrmem (by simpa using hp)
              subst hreq
              obtain ⟨hmr1, hdead, hnd⟩ := ihinv r hrmem
              refine ⟨by simpa using hmr1, ?_, ?_⟩
              · intro hds
                exact absurd hds (by simp)
              · intro _
                have hlt : (r.attempts : Int) < r.max_retries :=
                  hnd (by simp [hs])
                simpa using hlt
            · rw [if_neg hp] at he
              subst he
              exact ihinv _ hrmem

/-- Claim C2 (amended): in every store reachable without ever requeueing a
`dead` job — and with a positive resolved `max_retries` at enqueue, as the
data model requires — every row keeps `attempts <= max_retries`, and
`state == dead` holds only with `attempts == max_retries`, which is set
inside `fail`.  The manual DLQ retry path breaks the original bound: a
`dead` job requeued with unchanged attempts that fails again reaches
`attempts = max_retries + 1`. -/
theorem attempts_within_maxRetries_noDLQ (store : List Job)
    (h : ReachableND store) :
    ∀ j ∈ store, (j.attempts : Int) ≤ j.max_retries ∧
      (j.state = JobState.dead → (j.attempts : Int) = j.max_retries) := by
  intro j hj
  obtain ⟨_, hinv⟩ := reachableND_invariant store h
  obtain ⟨hmr1, hdead, hnd⟩ := hinv j hj
  refine ⟨?_, hdead⟩
  by_cases hds : j.state = JobState.dead
  · exact le_of_eq (hdead hds)
  · exact le_of_lt (hnd hds)

/-- Witness for amended C2: after one enqueue the fresh pending row
satisfies the bound. -/
theorem attempts_within_maxRetries_noDLQ_witness :
    (samplePending.attempts : Int) ≤ samplePending.max_retries ∧
    (samplePending.state = JobState.dead →
      (samplePending.attempts : Int) = samplePending.max_retries) :=
  attempts_within_maxRetries_noDLQ [samplePending]
    (ReachableND.step ReachableND.empty
      (StepND.enqueue sampleSpec 0 samplePending (by decide) rfl))
    samplePending (by simp)

/-- Counterexample to C2 as stated: a job with `max_retries = 2` is
enqueued, claimed and failed twice (reaching `dead` with `attempts = 2`),
manually DLQ-retried (attempts unchanged), claimed and failed once more —
all registry operations as the code invokes them — and ends with
`attempts = 3 > max_retries = 2`. -/
theorem attempts_exceed_maxRetries_after_DLQ_retry :
    Reachable [cexJ9] ∧ (cexJ9.attempts : Int) > cexJ9.max_retries := by
  constructor
  · have h1 : Reachable [cexJ1] :=
      Reachable.step Reachable.empty (Step.enqueue cexSpec 0 cexJ1 rfl)
    have h2 : Reachable [cexJ2] :=
      Reachable.step h1 (Step.claim "t2" "w1" 1)
    have h3 : Reachable [cexJ3] :=
      Reachable.step h2
        (Step.fail cexJ2 "boom" 2 2 (List.mem_singleton.mpr rfl) rfl rfl)
    have h4 : Reachable [cexJ4] :=
      Reachable.step h3
        (Step.retryRequeue cexJ3 3 cexJ4 (List.mem_singleton.mpr rfl) rfl rfl)
    have h5 : Reachable [cexJ5] :=
      Reachable.step h4 (Step.claim "t2" "w1" 4)
    have h6 : Reachable [cexJ6] :=
      Reachable.step h5
        (Step.fail cexJ5 "boom" 2 5 (List.mem_singleton.mpr rfl) rfl rfl)
    have h7 : Reachable [cexJ7] :=
      Reachable.step h6
        (Step.dlqRetry cexJ6 6 cexJ7 (List.mem_singleton.mpr rfl) rfl rfl)
    have h8 : Reachable [cexJ8] :=
      Reachable.step h7 (Step.claim "t2" "w1" 7)
    exact Reachable.step h8
      (Step.fail cexJ8 "boom" 2 8 (List.mem_singleton.mpr rfl) rfl rfl)
  · decide
